import Mathlib

/-!
Verification of the image-tagging / pool-creation tools (tagger.py and
pool_creator.py) against their specification.

The development shallowly embeds the two Python programs:

* tagger.py: the tag merge engine (modify_tags_on_file), the add/remove
  command dispatch, and the auto-tag derivation of tags from a folder
  hierarchy (cmd_auto_tag).
* pool_creator.py: the two-pass pool organizer — a pure planning pass that
  assigns each image record to at most one pool (first-match-wins), and an
  execution pass that performs moves and accumulates per-pool reports.

Python strings are modelled as Lean Strings, and the Python string
primitives used by the code (str.lower, str.strip, str.split, comparison)
are given explicit structural definitions over the underlying character
list, so that every definition evaluates by kernel reduction.  Python sets
of strings are modelled as Finset String; where the source materializes a
set in unspecified iteration order and the claims depend only on the
underlying set, the model materializes it in sorted order (noted at each
such place).  Filesystem and metadata I/O are external collaborators: reads
are passed in as values, write/move success is an explicit flag or oracle.
-/

namespace ImgTag

/-! ### Python string primitives (structural models of str methods) -/

/-- Model of Python str.lower (ASCII case mapping, which is all the repo uses). -/
def pyLower (s : String) : String := ⟨s.data.map Char.toLower⟩

/-- Whitespace recognized by Python str.strip (ASCII subset). -/
def pyIsSpace (c : Char) : Bool :=
  c == ' ' || c == '\t' || c == '\n' || c == '\r' || c == '\x0b' || c == '\x0c'

/-- Model of Python str.strip(): drop leading and trailing whitespace. -/
def pyStrip (s : String) : String :=
  ⟨((s.data.dropWhile pyIsSpace).reverse.dropWhile pyIsSpace).reverse⟩

/-- Splitting a character list at every separator character; like Python
str.split(sep) / re.split on a character class, empty pieces are kept. -/
def splitAux (p : Char → Bool) : List Char → List (List Char)
  | [] => [[]]
  | c :: cs =>
    match splitAux p cs with
    | [] => if p c then [[], []] else [[c]]
    | h :: t => if p c then [] :: h :: t else (c :: h) :: t

/-- Model of Python str.split(sep) for a one-character separator (and of
re.split over a character class when p accepts several characters). -/
def pySplit (p : Char → Bool) (s : String) : List String :=
  (splitAux p s.data).map fun cs => ⟨cs⟩

/-- Index of the last occurrence of a character, like Python str.rfind. -/
def rfindChar (c : Char) : List Char → Option Nat
  | [] => none
  | x :: xs =>
    match rfindChar c xs with
    | some i => some (i + 1)
    | none => if x == c then some 0 else none

/-- Joining path/tag segments with "/" (Python "/".join). -/
def joinSlash : List String → String
  | [] => ""
  | [a] => a
  | a :: rest => a ++ "/" ++ joinSlash rest

/-! ### POSIX-style path helpers (pathlib on the relative slash paths the
tools traffic in; drive letters, absolute-path anchoring and ".." are not
exercised by the programs' CSV-relative paths and are out of scope). -/

/-- Path(a) / b for a relative b. -/
def joinPath (a b : String) : String := a ++ "/" ++ b

/-- Path(p).name: the component after the last slash. -/
def baseName (p : String) : String := (pySplit (· == '/') p).getLastD ""

/-- Path(p).parent: the components before the last slash ("." when there is
no slash, as in pathlib). -/
def dirname (p : String) : String :=
  let comps := pySplit (· == '/') p
  if comps.length ≤ 1 then "." else joinSlash comps.dropLast

/-- Path(p).suffix, following CPython: the final "."-suffix of the name,
empty when the name has no dot, starts with its only dot (hidden file), or
ends in a dot. -/
def pySuffix (p : String) : String :=
  let name := baseName p
  match rfindChar '.' name.data with
  | some i => if 0 < i ∧ i + 1 < name.data.length then ⟨name.data.drop i⟩ else ""
  | none => ""

/-- Helper for relativeTo: strip an exact character-list prefix. -/
def dropPre : List Char → List Char → Option (List Char)
  | [], cs => some cs
  | _ :: _, [] => none
  | p :: ps, c :: cs => if p == c then dropPre ps cs else none

/-- Path(s).relative_to(base) for the subpaths produced by the mover (s is
always base/…); when s is not below base the path is returned unchanged
(in the source this raises, which the surrounding try reports as a failed
move — the claims do not inspect this field). -/
def relativeTo (base s : String) : String :=
  match dropPre (base ++ "/").data s.data with
  | some rest => ⟨rest⟩
  | none => s

/-! ### Ordering on tags: Python string comparison (code-point lexicographic),
used by sorted() in the merge engine. -/

/-- Python string comparison s <= t, code-point lexicographic. -/
def strLe (s t : String) : Bool :=
  go s.data t.data
where
  go : List Char → List Char → Bool
    | [], _ => true
    | _ :: _, [] => false
    | a :: as, b :: bs =>
      if a == b then go as bs else decide (a.toNat < b.toNat)

/-- Propositional form of strLe, the order sorted() uses on tags. -/
def TagLe (a b : String) : Prop := strLe a b = true

instance : DecidableRel TagLe := fun a b => Bool.decEq (strLe a b) true

instance : IsRefl String TagLe where
  refl a := by
    have key : ∀ as : List Char, strLe.go as as = true := by
      intro as
      induction as with
      | nil => rfl
      | cons a as ih => simp only [strLe.go, BEq.refl, if_true]; exact ih
    exact key a.data

instance : IsTrans String TagLe where
  trans a b c hab hbc := by
    have key : ∀ as bs cs : List Char, strLe.go as bs = true → strLe.go bs cs = true →
        strLe.go as cs = true := by
      intro as
      induction as with
      | nil => intro bs cs _ _; rfl
      | cons a as ih =>
        intro bs cs h1 h2
        cases bs with
        | nil => simp [strLe.go] at h1
        | cons b bs =>
          cases cs with
          | nil => simp [strLe.go] at h2
          | cons c cs =>
            simp only [strLe.go] at h1 h2 ⊢
            by_cases hab' : a = b
            · subst hab'
              rw [if_pos (beq_self_eq_true a)] at h1
              by_cases hbc' : a = c
              · subst hbc'
                rw [if_pos (beq_self_eq_true a)] at h2 ⊢
                exact ih bs cs h1 h2
              · rw [if_neg (by simpa using hbc')] at h2 ⊢
                exact h2
            · rw [if_neg (by simpa using hab')] at h1
              by_cases hbc' : b = c
              · subst hbc'
                rw [if_neg (by simpa using hab')]
                exact h1
              · rw [if_neg (by simpa using hbc')] at h2
                have hac : a.toNat < c.toNat :=
                  Nat.lt_trans (of_decide_eq_true h1) (of_decide_eq_true h2)
                have hne : a ≠ c := by
                  intro he; subst he; exact Nat.lt_irrefl _ hac
                rw [if_neg (by simpa using hne)]
                exact decide_eq_true hac
    exact key a.data b.data c.data hab hbc

instance : IsAntisymm String TagLe where
  antisymm a b hab hba := by
    have key : ∀ as bs : List Char, strLe.go as bs = true → strLe.go bs as = true →
        as = bs := by
      intro as
      induction as with
      | nil =>
        intro bs h1 h2
        cases bs with
        | nil => rfl
        | cons b bs => simp [strLe.go] at h2
      | cons a as ih =>
        intro bs h1 h2
        cases bs with
        | nil => simp [strLe.go] at h1
        | cons b bs =>
          simp only [strLe.go] at h1 h2
          by_cases hab' : a = b
          · subst hab'
            rw [if_pos (beq_self_eq_true a)] at h1 h2
            rw [ih bs h1 h2]
          · rw [if_neg (by simpa using hab')] at h1
            have hba' : b ≠ a := fun he => hab' he.symm
            rw [if_neg (by simpa using hba')] at h2
            exact absurd (Nat.lt_trans (of_decide_eq_true h1) (of_decide_eq_true h2))
              (Nat.lt_irrefl _)
    have := key a.data b.data hab hba
    exact congrArg String.mk this

instance : IsTotal String TagLe where
  total a b := by
    have charInj : ∀ x y : Char, x.toNat = y.toNat → x = y := by
      intro x y h
      have h1 := Char.ofNat_toNat x
      rw [h, Char.ofNat_toNat] at h1
      exact h1.symm
    have key : ∀ as bs : List Char, strLe.go as bs = true ∨ strLe.go bs as = true := by
      intro as
      induction as with
      | nil => intro bs; left; rfl
      | cons a as ih =>
        intro bs
        cases bs with
        | nil => right; rfl
        | cons b bs =>
          simp only [strLe.go]
          by_cases hab' : a = b
          · subst hab'
            simp only [beq_self_eq_true, if_true]
            exact ih bs
          · have hba' : b ≠ a := fun he => hab' he.symm
            rw [if_neg (by simpa using hab'), if_neg (by simpa using hba')]
            rcases Nat.lt_or_ge a.toNat b.toNat with h | h
            · left; exact decide_eq_true h
            · rcases Nat.lt_or_eq_of_le h with h' | h'
              · right; exact decide_eq_true h'
              · exact absurd (charInj _ _ h'.symm) hab'
    exact key a.data b.data

/-- Materialization of a Python set of tags as sorted(list(s)): the
duplicate-free list of the set's members in Python string order. -/
def sortedTagList (s : Finset String) : List String :=
  Quot.liftOn s.val (List.insertionSort TagLe) fun l1 l2 h =>
    List.eq_of_perm_of_sorted
      (((List.perm_insertionSort TagLe l1).trans h).trans
        (List.perm_insertionSort TagLe l2).symm)
      (List.sorted_insertionSort TagLe l1) (List.sorted_insertionSort TagLe l2)

/-! ### tagger.py — the tag merge engine (modify_tags_on_file, lines 60-118) -/

/-- Mode argument of modify_tags_on_file.  The source raises ValueError on any
other string; typing the argument as this inductive closes that branch. -/
inductive Mode
  | merge
  | remove
  | overwrite
deriving DecidableEq

/-- Step 2 of modify_tags_on_file (lines 94-102): compute the new tag set from
the existing set and the operand set according to the mode. -/
def applyMode (existing_tags_set new_tags_set : Finset String) : Mode → Finset String
  | Mode.merge => existing_tags_set ∪ new_tags_set
  | Mode.remove => existing_tags_set \ new_tags_set
  | Mode.overwrite => new_tags_set

/-- modify_tags_on_file (tagger.py lines 60-118).  External I/O is passed in
as values: readTags is the result of the initial Xmp.dc.subject read (none
models the swallowed read exception, which leaves the empty set, lines
81-90); writeOk models whether the write step (lines 109-111) succeeds.
On success the function returns (True, sorted(list(final_tags_set)))
(lines 106, 113); on a write failure it returns (False,
list(existing_tags_set)) (line 118) — Python materializes that set in
unspecified iteration order, modelled here in sorted order since the claims
depend only on the underlying set. -/
def modify_tags_on_file (readTags : Option (List String)) (writeOk : Bool)
    (tags_to_process : List String) (mode : Mode) : Bool × List String :=
  let existing_tags_set : Finset String := (readTags.getD []).toFinset
  let new_tags_set : Finset String := tags_to_process.toFinset
  let final_tags_set : Finset String := applyMode existing_tags_set new_tags_set mode
  let final_tags_list : List String := sortedTagList final_tags_set
  if writeOk then (true, final_tags_list) else (false, sortedTagList existing_tags_set)

/-- cmd_add (lines 161-181) forwards args.tags to the engine unchanged, in
merge mode, for every resolved file. -/
def cmd_add_call (tags : List String) : List String × Mode := (tags, Mode.merge)

/-- Operand and mode that cmd_remove (lines 183-217) passes to the engine:
with --all it invokes overwrite with the empty list (lines 193-196); with an
empty tag list and no --all it refuses (lines 204-206, none); otherwise it
invokes remove with the given tags (line 210). -/
def cmd_remove_call (all : Bool) (tags : List String) : Option (List String × Mode) :=
  if all then some ([], Mode.overwrite)
  else if tags = [] then none
  else some (tags, Mode.remove)

/-! ### tagger.py — auto-tag derivation (cmd_auto_tag, lines 355-406) -/

/-- Lines 365-366: if args.max_depth and len(parts) > args.max_depth, keep
parts[:args.max_depth].  argparse gives an int, so 0 is falsy (no
truncation) and a negative bound slices from the end, both modelled
exactly; none models an absent --max-depth. -/
def truncateChain (parts : List String) : Option Int → List String
  | none => parts
  | some d =>
    if d ≠ 0 ∧ d < (parts.length : Int) then
      parts.take (if 0 ≤ d then d.toNat else ((parts.length : Int) + d).toNat)
    else parts

/-- Loop of lines 372-380 building the cumulative hierarchical chains:
current starts empty; each segment is lower-cased and appended to the chain
("{current}/{part}" when current is non-empty, else the bare part). -/
def chainAux (current : String) : List String → List String
  | [] => []
  | part :: rest =>
    let part_lower := pyLower part
    let next := if current == "" then part_lower else current ++ "/" ++ part_lower
    next :: chainAux next rest

/-- The hierarchical_tags list of cmd_auto_tag. -/
def hierarchicalTags (parts : List String) : List String := chainAux "" parts

/-- The individual_parts_tags set of cmd_auto_tag (line 376): the set of
lower-cased segments. -/
def individualTags (parts : List String) : Finset String :=
  (parts.map pyLower).toFinset

/-- Lines 385-390: tokens of the filename stem split on - and _, kept when
  non-empty and longer than 2 characters, lower-cased. -/
def filenameTokens (stem : String) : List String :=
  (((pySplit (fun c => c == '-' || c == '_') stem).filter
    (fun token => token != "" && decide (2 < token.length))).map pyLower)

/-- The set of tags cmd_auto_tag generates for one image (lines 361-390):
nothing from an empty chain; otherwise the individual lower-cased segments
together with the cumulative chains over the (possibly truncated) segment
list; plus the filename tokens when --tags-from-filename is set.  The
source accumulates these in a list whose set is what both the dry-run
print and the merge engine consume, so the derivation result is modelled
as that set. -/
def generatedTags (parts : List String) (max_depth : Option Int)
    (tags_from_filename : Bool) (stem : String) : Finset String :=
  let base : Finset String :=
    if parts = [] then ∅
    else
      let tparts := truncateChain parts max_depth
      individualTags tparts ∪ (hierarchicalTags tparts).toFinset
  if tags_from_filename then base ∪ (filenameTokens stem).toFinset else base

/-- Spec-side description of the hierarchical tags (used to check claim C3's
wording against the source): the i-th cumulative chain is the "/"-join of
the first i+1 lower-cased segments. -/
def prefixChains (parts : List String) : List String :=
  (List.range parts.length).map fun i => joinSlash ((parts.take (i + 1)).map pyLower)

/-- Helper for relating chainAux to prefixChains: a chain continued from a
non-empty accumulator c is c ++ "/" ++ the joined segments. -/
def joinFrom (c : String) (l : List String) : String :=
  if c = "" then joinSlash l else c ++ "/" ++ joinSlash l

/-! ### pool_creator.py — data model and planning pass (main, lines 94-121) -/

/-- Extensions accepted by both tools (tagger.py line 25, pool_creator.py
line 101). -/
def SUPPORTED_EXTS : List String := [".jpg", ".jpeg", ".png", ".webp", ".tif", ".tiff"]

/-- Line 101: Path(record['filepath']).suffix.lower() in SUPPORTED_EXTS. -/
def hasSupportedExt (p : String) : Bool :=
  SUPPORTED_EXTS.contains (pyLower (pySuffix p))

/-- One row of the inventory CSV: a filepath and the raw comma-separated tag
string. -/
structure ImageRecord where
  filepath : String
  tags : String
deriving DecidableEq

/-- One row of the pool-definition CSV, as the raw strings the planning loop
reads via pool.get. -/
structure PoolDef where
  pool_name : String
  required_tags : String
deriving DecidableEq

/-- One entry of moves_to_make (line 118): source file, destination
directory, pool name, and the originating record. -/
structure Move where
  source : String
  dest : String
  pool_name : String
  record : ImageRecord
deriving DecidableEq

/-- Comma-split, strip, drop empties, collect as a set — the parsing applied
to both a record's tags (line 104) and a pool's required_tags (line 112). -/
def parseTags (s : String) : Finset String :=
  (((pySplit (· == ',') s).map pyStrip).filter (fun tag => tag != "")).toFinset

/-- A pool definition the planning loop does not skip (line 109): name and
required_tags both non-empty after stripping. -/
def validPool (p : PoolDef) : Prop :=
  pyStrip p.pool_name ≠ "" ∧ pyStrip p.required_tags ≠ ""

instance (p : PoolDef) : Decidable (validPool p) :=
  inferInstanceAs (Decidable (pyStrip p.pool_name ≠ "" ∧ pyStrip p.required_tags ≠ ""))

/-- Inner loop of the planning pass (lines 106-120): scan pools in definition
order, skip those with a blank name or blank required_tags, and return the
first whose required-tag set is a subset of the image's tags (the break on
line 120); none when no pool matches. -/
def findPool (image_tags : Finset String) : List PoolDef → Option PoolDef
  | [] => none
  | pool :: rest =>
    let pool_name := pyStrip pool.pool_name
    let required_tags_str := pyStrip pool.required_tags
    if pool_name == "" || required_tags_str == "" then findPool image_tags rest
    else if parseTags required_tags_str ⊆ image_tags then some pool
    else findPool image_tags rest

/-- Lines 115-118: the planned move for a record matched to a pool.  The
source is data_csv_dir / filepath, the destination its parent / pool name. -/
def mkMove (dataDir : String) (record : ImageRecord) (pool : PoolDef) : Move :=
  let source_file := joinPath dataDir record.filepath
  { source := source_file
    dest := joinPath (dirname source_file) (pyStrip pool.pool_name)
    pool_name := pyStrip pool.pool_name
    record := record }

/-- Pass 1 of pool_creator.main (lines 99-120): for each record in input
order, skip non-image extensions (line 101), otherwise plan at most one move
into the first matching pool. -/
def plan (dataDir : String) (image_data : List ImageRecord)
    (pool_definitions : List PoolDef) : List Move :=
  image_data.filterMap fun record =>
    if hasSupportedExt record.filepath then
      (findPool (parseTags record.tags) pool_definitions).map (mkMove dataDir record)
    else none

/-- Spec-side description of pool selection (claim C1's wording): scan the
pools in definition order and return the first whose required-tag set is a
subset of the image's tag set. -/
def firstMatchingPool (image_tags : Finset String) : List PoolDef → Option PoolDef
  | [] => none
  | p :: rest =>
    if parseTags (pyStrip p.required_tags) ⊆ image_tags then some p
    else firstMatchingPool image_tags rest

/-- Spec-side planning pass built from firstMatchingPool, to be compared with
plan. -/
def planSpec (dataDir : String) (image_data : List ImageRecord)
    (pool_definitions : List PoolDef) : List Move :=
  image_data.filterMap fun record =>
    if hasSupportedExt record.filepath then
      (firstMatchingPool (parseTags record.tags) pool_definitions).map (mkMove dataDir record)
    else none

/-! ### pool_creator.py — execution pass (main, lines 126-144) -/

/-- What happened to one planned move: source missing at its turn (line 131),
shutil.move raised (line 143), or moved and reported (lines 137-142). -/
inductive Outcome
  | skipped
  | failed
  | moved
deriving DecidableEq

/-- State threaded through the execution pass: outcomes in move order, the
per-pool report rows ((pool_name, updated record) pairs in append order,
line 141), and the set of existing source files. -/
structure ExecResult where
  results : List (Move × Outcome)
  reports : List (String × ImageRecord)
  files : Finset String
deriving DecidableEq

/-- Path of the file after shutil.move(source, dest_dir): dest_dir joined
with the source's basename. -/
def movedPath (m : Move) : String := joinPath m.dest (baseName m.source)

/-- Lines 139-140: the record rewritten with the new path relative to the
data CSV's directory (the backslash normalization is a no-op on the
slash paths modelled here). -/
def movedRecord (dataDir : String) (m : Move) : ImageRecord :=
  { m.record with filepath := relativeTo dataDir (movedPath m) }

/-- Pass 2 of pool_creator.main (lines 126-144).  The filesystem is the set
of existing files; fails is the oracle for shutil.move raising (line 143).
Per move: a missing source is skipped with a warning (lines 131-133); a
failed move changes nothing and the loop continues; a successful move
renames the file and appends the updated record to its pool's report
(lines 137-142).  mkdir (line 135) is idempotent directory creation with no
bearing on the modelled file set. -/
def execPass (dataDir : String) (fails : Move → Bool) :
    Finset String → List Move → ExecResult
  | files, [] => ⟨[], [], files⟩
  | files, m :: rest =>
    if m.source ∉ files then
      let r := execPass dataDir fails files rest
      ⟨(m, Outcome.skipped) :: r.results, r.reports, r.files⟩
    else if fails m then
      let r := execPass dataDir fails files rest
      ⟨(m, Outcome.failed) :: r.results, r.reports, r.files⟩
    else
      let r := execPass dataDir fails (insert (movedPath m) (files.erase m.source)) rest
      ⟨(m, Outcome.moved) :: r.results,
        (m.pool_name, movedRecord dataDir m) :: r.reports, r.files⟩

/-! ### Helper lemmas -/

theorem mem_sortedTagList {t : String} {s : Finset String} :
    t ∈ sortedTagList s ↔ t ∈ s := by
  rcases s with ⟨m, nd⟩
  revert nd
  refine Quotient.inductionOn m ?_
  intro l nd
  show t ∈ List.insertionSort TagLe l ↔ _
  rw [(List.perm_insertionSort TagLe l).mem_iff]
  simp [Finset.mem_mk]

theorem sortedTagList_sorted (s : Finset String) : List.Sorted TagLe (sortedTagList s) := by
  rcases s with ⟨m, nd⟩
  revert nd
  refine Quotient.inductionOn m ?_
  intro l _
  exact List.sorted_insertionSort TagLe l

theorem sortedTagList_nodup (s : Finset String) : (sortedTagList s).Nodup := by
  rcases s with ⟨m, nd⟩
  revert nd
  refine Quotient.inductionOn m ?_
  intro l nd
  exact ((List.perm_insertionSort TagLe l).nodup_iff).mpr (Multiset.coe_nodup.mp nd)

theorem sortedTagList_toFinset (s : Finset String) : (sortedTagList s).toFinset = s := by
  ext t
  rw [List.mem_toFinset, mem_sortedTagList]

/-! ### Claims about the tag merge engine -/

/-- Claim C2: for every existing tag set and operand set, Merge yields the
union of existing and operand, Remove yields existing minus operand,
Overwrite yields the operand with the existing set discarded, and the list
returned (and handed to the external write) on success is the
duplicate-free sorted list of that result. -/
theorem merge_engine_modes (existing opnd : List String) (mode : Mode) :
    (modify_tags_on_file (some existing) true opnd mode).1 = true ∧
    List.Sorted TagLe (modify_tags_on_file (some existing) true opnd mode).2 ∧
    (modify_tags_on_file (some existing) true opnd mode).2.Nodup ∧
    (modify_tags_on_file (some existing) true opnd mode).2.toFinset =
      (match mode with
        | Mode.merge => existing.toFinset ∪ opnd.toFinset
        | Mode.remove => existing.toFinset \ opnd.toFinset
        | Mode.overwrite => opnd.toFinset) := by
  have h2 : (modify_tags_on_file (some existing) true opnd mode).2 =
      sortedTagList (applyMode existing.toFinset opnd.toFinset mode) := rfl
  refine ⟨rfl, ?_, ?_, ?_⟩
  · rw [h2]; exact sortedTagList_sorted _
  · rw [h2]; exact sortedTagList_nodup _
  · rw [h2, sortedTagList_toFinset]
    cases mode <;> rfl

/-- Claim C5: Remove with a literal empty operand is a no-op on every tag
set, while cmd_remove carries a remove-all request out as Overwrite with the
empty operand, which empties the tag set; shown both at the engine level and
on the concrete example sets of the spec. -/
theorem remove_empty_noop_removeall_overwrites (T : Finset String) (tags : List String) :
    applyMode T ∅ Mode.remove = T ∧
    applyMode T ∅ Mode.overwrite = ∅ ∧
    cmd_remove_call true tags = some ([], Mode.overwrite) ∧
    modify_tags_on_file (some ["a", "b"]) true [] Mode.remove = (true, ["a", "b"]) ∧
    modify_tags_on_file (some ["a", "b"]) true [] Mode.overwrite = (true, []) := by
  refine ⟨?_, rfl, rfl, by decide, by decide⟩
  show T \ ∅ = T
  exact Finset.sdiff_empty

/-- Claim C6: Merge is idempotent (merging the same operand twice, including
through a full write-then-reread round trip of the engine, changes nothing
beyond the first application) and commutative (the order of two merge
operands does not matter and the result is the three-way union). -/
theorem merge_idempotent_commutative (T A B : Finset String) (existing opnd : List String) :
    applyMode (applyMode T A Mode.merge) A Mode.merge = applyMode T A Mode.merge ∧
    applyMode (applyMode T A Mode.merge) B Mode.merge =
      applyMode (applyMode T B Mode.merge) A Mode.merge ∧
    applyMode (applyMode T A Mode.merge) B Mode.merge = T ∪ A ∪ B ∧
    (modify_tags_on_file (some (modify_tags_on_file (some existing) true opnd Mode.merge).2)
        true opnd Mode.merge).2 =
      (modify_tags_on_file (some existing) true opnd Mode.merge).2 := by
  refine ⟨?_, ?_, rfl, ?_⟩
  · show T ∪ A ∪ A = T ∪ A
    rw [Finset.union_assoc, Finset.union_self]
  · show T ∪ A ∪ B = T ∪ B ∪ A
    exact Finset.union_right_comm T A B
  · show sortedTagList ((sortedTagList (existing.toFinset ∪ opnd.toFinset)).toFinset ∪
        opnd.toFinset) = sortedTagList (existing.toFinset ∪ opnd.toFinset)
    rw [sortedTagList_toFinset, Finset.union_assoc, Finset.union_self]

/-- Claim C7: when the persist step fails, modify_tags_on_file reports
failure and the tag list it returns is exactly the last successfully-read
existing set (the empty set when even the read failed), not the unwritten
computed set; being a pure function of its inputs, it mutates nothing. -/
theorem write_failure_keeps_existing (readTags : Option (List String))
    (opnd : List String) (mode : Mode) :
    (modify_tags_on_file readTags false opnd mode).1 = false ∧
    (modify_tags_on_file readTags false opnd mode).2.toFinset = (readTags.getD []).toFinset := by
  have h2 : (modify_tags_on_file readTags false opnd mode).2 =
      sortedTagList (readTags.getD []).toFinset := rfl
  exact ⟨rfl, by rw [h2]; exact sortedTagList_toFinset _⟩

/-- Claim C9 counterexample: the engine does not normalize tags.  Adding the
command-line tag "NaTure " (as cmd_add does, forwarding args.tags verbatim
in merge mode) stores exactly "NaTure ", which is neither trimmed nor
lower-cased, refuting the claimed lower-cased/trimmed invariant. -/
theorem tags_not_normalized_counterexample :
    (modify_tags_on_file (some []) true ["NaTure "] Mode.merge).2 = ["NaTure "] ∧
    cmd_add_call ["NaTure "] = (["NaTure "], Mode.merge) ∧
    pyStrip "NaTure " ≠ "NaTure " ∧ pyLower "NaTure " ≠ "NaTure " := by
  refine ⟨by decide, rfl, by decide, by decide⟩

/-- Claim C9 amended: tag lists stored by a merge-engine operation are
duplicate-free, but tags are stored verbatim: a tag is stored by the add
command (merge mode) exactly when it is literally one of the existing or
supplied strings — no lower-casing or trimming is applied. -/
theorem merge_engine_stores_tags_verbatim (existing opnd : List String) (t : String) :
    (modify_tags_on_file (some existing) true opnd Mode.merge).2.Nodup ∧
    ((t ∈ (modify_tags_on_file (some existing) true opnd Mode.merge).2) ↔
      t ∈ existing ∨ t ∈ opnd) ∧
    cmd_add_call opnd = (opnd, Mode.merge) := by
  have h2 : (modify_tags_on_file (some existing) true opnd Mode.merge).2 =
      sortedTagList (existing.toFinset ∪ opnd.toFinset) := rfl
  refine ⟨?_, ?_, rfl⟩
  · rw [h2]; exact sortedTagList_nodup _
  · rw [h2, mem_sortedTagList, Finset.mem_union, List.mem_toFinset, List.mem_toFinset]

/-! ### Claims about the auto-tag derivation -/

theorem pyLower_ne_empty {s : String} (h : s ≠ "") : pyLower s ≠ "" := by
  rcases s with ⟨data⟩
  intro he
  apply h
  have h2 : List.map Char.toLower data = [] := congrArg String.data he
  have h3 : data = [] := List.map_eq_nil_iff.mp h2
  rw [h3]

theorem append_slash_ne_empty (a b : String) : a ++ "/" ++ b ≠ "" := by
  intro h
  have h3 : a.data ++ ['/'] ++ b.data = [] := congrArg String.data h
  rcases List.append_eq_nil.mp h3 with ⟨h4, _⟩
  rcases List.append_eq_nil.mp h4 with ⟨_, h6⟩
  exact List.cons_ne_nil _ _ h6

theorem joinFrom_cons (c pl : String) (l : List String) (hpl : pl ≠ "") (hl : l ≠ []) :
    joinFrom (joinFrom c [pl]) l = joinFrom c (pl :: l) := by
  rcases l with _ | ⟨a, l'⟩
  · exact absurd rfl hl
  · by_cases hc : c = ""
    · subst hc
      show joinFrom (joinFrom "" [pl]) _ = _
      simp only [joinFrom, if_pos rfl]
      show joinFrom (joinSlash [pl]) _ = _
      show joinFrom pl _ = _
      rw [joinFrom, if_neg hpl]
      rfl
    · simp only [joinFrom, if_neg hc]
      show (if c ++ "/" ++ joinSlash [pl] = "" then _ else _) = _
      rw [if_neg (append_slash_ne_empty c (joinSlash [pl]))]
      show c ++ "/" ++ pl ++ "/" ++ joinSlash (a :: l') = c ++ "/" ++ (pl ++ "/" ++ joinSlash (a :: l'))
      simp [String.append_assoc]

theorem chainAux_eq (parts : List String) (h : ∀ s ∈ parts, pyLower s ≠ "") :
    ∀ c, chainAux c parts =
      (List.range parts.length).map fun i => joinFrom c ((parts.take (i + 1)).map pyLower) := by
  induction parts with
  | nil => intro c; rfl
  | cons p rest ih =>
    intro c
    have hp : pyLower p ≠ "" := h p (List.mem_cons_self p rest)
    have hrest : ∀ s ∈ rest, pyLower s ≠ "" := fun s hs => h s (List.mem_cons_of_mem p hs)
    have hnext : (if c == "" then pyLower p else c ++ "/" ++ pyLower p) = joinFrom c [pyLower p] := by
      by_cases hc : c = "" <;> simp [joinFrom, joinSlash, hc]
    simp only [chainAux, hnext, ih hrest]
    rw [List.length_cons, List.range_succ_eq_map, List.map_cons, List.map_map]
    refine congrArg₂ List.cons rfl ?_
    refine List.map_congr_left fun i hi => ?_
    have hi' : i < rest.length := List.mem_range.mp hi
    show joinFrom (joinFrom c [pyLower p]) ((rest.take (i + 1)).map pyLower) =
      joinFrom c (((p :: rest).take (i + 1 + 1)).map pyLower)
    have htake : (p :: rest).take (i + 1 + 1) = p :: rest.take (i + 1) := rfl
    rw [htake, List.map_cons]
    refine joinFrom_cons c (pyLower p) _ hp ?_
    intro hnil
    have h0 := List.map_eq_nil_iff.mp hnil
    rcases List.take_eq_nil_iff.mp h0 with h1 | h1
    · exact Nat.succ_ne_zero i h1
    · rw [h1] at hi'
      exact Nat.not_lt_zero i hi'

/-- Claim C3: for every non-empty path chain (of non-empty directory-name
segments, as pathlib produces), derivation with no depth limit and filename
tokens disabled yields exactly the union of the lower-cased individual
segments and the cumulative "/"-joined prefix chains. -/
theorem derive_yields_segments_and_chains (parts : List String)
    (h1 : parts ≠ []) (h2 : ∀ s ∈ parts, s ≠ "") :
    generatedTags parts none false "" =
      (parts.map pyLower).toFinset ∪ (prefixChains parts).toFinset := by
  have hl : ∀ s ∈ parts, pyLower s ≠ "" := fun s hs => pyLower_ne_empty (h2 s hs)
  have hchain : hierarchicalTags parts = prefixChains parts := by
    unfold hierarchicalTags prefixChains
    rw [chainAux_eq parts hl ""]
    exact List.map_congr_left fun i _ => by simp [joinFrom]
  show (if parts = [] then (∅ : Finset String)
    else individualTags (truncateChain parts none) ∪
      (hierarchicalTags (truncateChain parts none)).toFinset) = _
  rw [if_neg h1]
  show individualTags parts ∪ (hierarchicalTags parts).toFinset = _
  rw [hchain]
  rfl

/-- Witness for claim C3: derivation on the spec's concrete chain
["a", "b", "c"] yields exactly the five-tag set of the claim. -/
theorem derive_yields_segments_and_chains_witness :
    ((["a", "b", "c"] : List String) ≠ [] ∧ ∀ s ∈ (["a", "b", "c"] : List String), s ≠ "") ∧
    generatedTags ["a", "b", "c"] none false "" = {"a", "b", "c", "a/b", "a/b/c"} :=
  ⟨⟨by decide, by decide⟩,
    (derive_yields_segments_and_chains ["a", "b", "c"] (by decide) (by decide)).trans (by decide)⟩

/-- Claim C4 counterexample: the claim quantifies over every max_depth value
that is set, but the code's truthiness test (if args.max_depth) treats the
set value 0 as no limit: deriving from the chain ["a"] with max_depth 0 —
where the claim demands that no derived tag reference any segment past the
first 0 — still derives the tag "a". -/
theorem max_depth_zero_not_truncated_counterexample :
    "a" ∈ generatedTags ["a"] (some 0) false "" := by decide

/-- Claim C4 amended: for every max_depth that is set to a positive value,
if the chain's length exceeds max_depth then derivation works on exactly the
first max_depth segments — it coincides with unlimited derivation on the
truncated chain, so no derived tag references any deeper segment. -/
theorem positive_max_depth_truncates (parts : List String) (d : Int) (ftf : Bool)
    (stem : String) (hd : 0 < d) (hlen : d < (parts.length : Int)) :
    generatedTags parts (some d) ftf stem =
      generatedTags (parts.take d.toNat) none ftf stem := by
  have hne : parts ≠ [] := by
    intro h
    rw [h] at hlen
    simp at hlen
    omega
  have htake : truncateChain parts (some d) = parts.take d.toNat := by
    show (if d ≠ 0 ∧ d < (parts.length : Int) then
      parts.take (if 0 ≤ d then d.toNat else ((parts.length : Int) + d).toNat)
      else parts) = _
    rw [if_pos ⟨by omega, hlen⟩, if_pos (le_of_lt hd)]
  have htne : parts.take d.toNat ≠ [] := by
    intro h
    rcases List.take_eq_nil_iff.mp h with h0 | h0
    · omega
    · exact hne h0
  simp only [generatedTags]
  rw [if_neg hne, if_neg htne, htake]
  rfl

/-- Witness for the amended claim C4: max_depth 2 on the chain
["a", "b", "c"] derives exactly what the truncated chain ["a", "b"]
derives. -/
theorem positive_max_depth_truncates_witness :
    ((0 : Int) < 2 ∧ (2 : Int) < ((["a", "b", "c"] : List String).length : Int)) ∧
    generatedTags ["a", "b", "c"] (some 2) false "" =
      generatedTags ((["a", "b", "c"] : List String).take (Int.toNat 2)) none false "" :=
  ⟨⟨by decide, by decide⟩,
    positive_max_depth_truncates ["a", "b", "c"] 2 false "" (by decide) (by decide)⟩

/-! ### Claims about the pool planning pass -/

theorem filterMap_ext {α β : Type} (f g : α → Option β) (l : List α)
    (h : ∀ a, f a = g a) : l.filterMap f = l.filterMap g := by
  induction l with
  | nil => rfl
  | cons a l ih => simp only [List.filterMap_cons, h a, ih]

theorem filterMap_map_sublist {α β : Type} (f : α → Option β) (g : β → α) (l : List α)
    (h : ∀ a b, f a = some b → g b = a) : ((l.filterMap f).map g).Sublist l := by
  induction l with
  | nil => simp
  | cons a l ih =>
    rw [List.filterMap_cons]
    cases hfa : f a with
    | none => exact ih.cons a
    | some b => rw [List.map_cons, h a b hfa]; exact ih.cons₂ a

theorem findPool_eq_firstMatchingPool (image_tags : Finset String) (pools : List PoolDef)
    (h : ∀ p ∈ pools, validPool p) :
    findPool image_tags pools = firstMatchingPool image_tags pools := by
  induction pools with
  | nil => rfl
  | cons p rest ih =>
    obtain ⟨h1, h2⟩ := h p (List.mem_cons_self p rest)
    have hrest : ∀ q ∈ rest, validPool q := fun q hq => h q (List.mem_cons_of_mem p hq)
    have hcond : ¬((pyStrip p.pool_name == "" || pyStrip p.required_tags == "") = true) := by
      simp [h1, h2]
    show (if (pyStrip p.pool_name == "" || pyStrip p.required_tags == "") = true
        then findPool image_tags rest
        else if parseTags (pyStrip p.required_tags) ⊆ image_tags then some p
        else findPool image_tags rest) = _
    rw [if_neg hcond]
    show _ = (if parseTags (pyStrip p.required_tags) ⊆ image_tags then some p
      else firstMatchingPool image_tags rest)
    by_cases hsub : parseTags (pyStrip p.required_tags) ⊆ image_tags
    · rw [if_pos hsub, if_pos hsub]
    · rw [if_neg hsub, if_neg hsub, ih hrest]

/-- Claim C1: the planning pass assigns each image record to at most one
pool — it agrees with the spec-side plan that gives a record (with a
supported image extension) the first pool in definition order whose
required-tag set is a subset of the record's tag set and omits records
matching no pool; hence planned records form a sublist of the input (one
assignment per matched record, in input order), under the data-model
invariant that pool definitions have non-blank names and required tags. -/
theorem plan_assigns_first_matching_pool (dataDir : String)
    (image_data : List ImageRecord) (pools : List PoolDef)
    (hvalid : ∀ p ∈ pools, validPool p) :
    plan dataDir image_data pools = planSpec dataDir image_data pools ∧
    ((plan dataDir image_data pools).map Move.record).Sublist image_data := by
  constructor
  · unfold plan planSpec
    refine filterMap_ext _ _ image_data fun r => ?_
    rw [findPool_eq_firstMatchingPool (parseTags r.tags) pools hvalid]
  · unfold plan
    refine filterMap_map_sublist _ _ image_data fun r m hm => ?_
    by_cases hext : hasSupportedExt r.filepath = true
    · rw [if_pos hext] at hm
      rcases Option.map_eq_some'.mp hm with ⟨p, _, hp2⟩
      rw [← hp2]
      rfl
    · rw [if_neg hext] at hm
      exact absurd hm (by simp)

/-- Witness for claim C1, on the spec's first-match example: the image
tagged x,y goes to P1 (which requires only x and comes first), not to the
more specific P2. -/
theorem plan_assigns_first_matching_pool_witness :
    (∀ p ∈ [PoolDef.mk "P1" "x", PoolDef.mk "P2" "x,y"], validPool p) ∧
    (plan "d" [ImageRecord.mk "img.jpg" "x,y"] [PoolDef.mk "P1" "x", PoolDef.mk "P2" "x,y"] =
        planSpec "d" [ImageRecord.mk "img.jpg" "x,y"]
          [PoolDef.mk "P1" "x", PoolDef.mk "P2" "x,y"] ∧
      ((plan "d" [ImageRecord.mk "img.jpg" "x,y"]
          [PoolDef.mk "P1" "x", PoolDef.mk "P2" "x,y"]).map Move.record).Sublist
        [ImageRecord.mk "img.jpg" "x,y"]) :=
  ⟨by decide, plan_assigns_first_matching_pool "d" _ _ (by decide)⟩

theorem findPool_skips_invalid (image_tags : Finset String) (p : PoolDef)
    (h : pyStrip p.pool_name = "" ∨ pyStrip p.required_tags = "")
    (pre post : List PoolDef) :
    findPool image_tags (pre ++ p :: post) = findPool image_tags (pre ++ post) := by
  induction pre with
  | nil =>
    show (if (pyStrip p.pool_name == "" || pyStrip p.required_tags == "") = true
        then findPool image_tags post
        else if parseTags (pyStrip p.required_tags) ⊆ image_tags then some p
        else findPool image_tags post) = _
    rw [if_pos (by rcases h with h | h <;> simp [h])]
    rfl
  | cons q pre ih =>
    show (if (pyStrip q.pool_name == "" || pyStrip q.required_tags == "") = true
        then findPool image_tags (pre ++ p :: post)
        else if parseTags (pyStrip q.required_tags) ⊆ image_tags then some q
        else findPool image_tags (pre ++ p :: post)) = _
    rw [ih]
    rfl

/-- Claim C10: a pool definition whose name or required_tags is blank after
trimming is skipped for every image record — deleting it from the pool list
(wherever it sits) leaves the whole plan unchanged, so it never receives an
assignment even though an empty required-tag set would be a subset of every
image's tags. -/
theorem invalid_pool_never_assigned (dataDir : String) (image_data : List ImageRecord)
    (p : PoolDef) (pre post : List PoolDef)
    (h : pyStrip p.pool_name = "" ∨ pyStrip p.required_tags = "") :
    plan dataDir image_data (pre ++ p :: post) = plan dataDir image_data (pre ++ post) := by
  unfold plan
  refine filterMap_ext _ _ image_data fun r => ?_
  rw [findPool_skips_invalid (parseTags r.tags) p h pre post]

/-- Witness for claim C10: a pool with a blank name is skipped even though
its required tag matches, so the plan is the same with or without it. -/
theorem invalid_pool_never_assigned_witness :
    (pyStrip (PoolDef.mk "" "x").pool_name = "" ∨
      pyStrip (PoolDef.mk "" "x").required_tags = "") ∧
    plan "d" [ImageRecord.mk "a.jpg" "x"] (PoolDef.mk "" "x" :: [PoolDef.mk "P" "x"]) =
      plan "d" [ImageRecord.mk "a.jpg" "x"] [PoolDef.mk "P" "x"] :=
  ⟨Or.inl (by decide),
    invalid_pool_never_assigned "d" [ImageRecord.mk "a.jpg" "x"] (PoolDef.mk "" "x")
      [] [PoolDef.mk "P" "x"] (Or.inl (by decide))⟩

/-! ### Claims about the pool execution pass -/

theorem execPass_append (dataDir : String) (fails : Move → Bool) (files : Finset String)
    (xs ys : List Move) :
    execPass dataDir fails files (xs ++ ys) =
      { results := (execPass dataDir fails files xs).results ++
          (execPass dataDir fails (execPass dataDir fails files xs).files ys).results
        reports := (execPass dataDir fails files xs).reports ++
          (execPass dataDir fails (execPass dataDir fails files xs).files ys).reports
        files := (execPass dataDir fails (execPass dataDir fails files xs).files ys).files } := by
  induction xs generalizing files with
  | nil => rfl
  | cons m xs ih =>
    simp only [List.cons_append, execPass]
    by_cases h1 : m.source ∉ files
    · rw [if_pos h1, if_pos h1]
      simp only [List.append_eq, ih, List.cons_append]
    · rw [if_neg h1, if_neg h1]
      by_cases h2 : fails m = true
      · rw [if_pos h2, if_pos h2]
        simp only [List.append_eq, ih, List.cons_append]
      · rw [if_neg h2, if_neg h2]
        simp only [List.append_eq, ih, List.cons_append]

theorem execPass_results_map (dataDir : String) (fails : Move → Bool)
    (files : Finset String) (moves : List Move) :
    (execPass dataDir fails files moves).results.map Prod.fst = moves := by
  induction moves generalizing files with
  | nil => rfl
  | cons m rest ih =>
    simp only [execPass]
    by_cases h1 : m.source ∉ files
    · rw [if_pos h1]
      simp only [List.map_cons, ih]
    · rw [if_neg h1]
      by_cases h2 : fails m = true
      · rw [if_pos h2]
        simp only [List.map_cons, ih]
      · rw [if_neg h2]
        simp only [List.map_cons, ih]

theorem execPass_reports_eq_moved (dataDir : String) (fails : Move → Bool)
    (files : Finset String) (moves : List Move) :
    (execPass dataDir fails files moves).reports =
      ((execPass dataDir fails files moves).results.filter
        (fun r => decide (r.2 = Outcome.moved))).map
        (fun r => (r.1.pool_name, movedRecord dataDir r.1)) := by
  induction moves generalizing files with
  | nil => rfl
  | cons m rest ih =>
    simp only [execPass]
    by_cases h1 : m.source ∉ files
    · rw [if_pos h1]
      simp only [List.filter_cons, ih]
      rfl
    · rw [if_neg h1]
      by_cases h2 : fails m = true
      · rw [if_pos h2]
        simp only [List.filter_cons, ih]
        rfl
      · rw [if_neg h2]
        simp only [List.filter_cons, ih]
        rfl

/-- Claim C8: during the execution pass every planned assignment is
examined in input order (none is dropped after an earlier failure); the
per-pool report rows are exactly the successfully moved assignments (and
only those), each reported under its pool with its relocated record; and an
assignment whose source no longer exists at its turn is skipped — both a
skipped and a failed assignment contribute no report row and leave the file
state unchanged, so the remaining assignments execute exactly as they would
have from that state. -/
theorem exec_isolates_failures (dataDir : String) (fails : Move → Bool)
    (files : Finset String) (moves pre post : List Move) (m : Move)
    (h : m.source ∉ (execPass dataDir fails files pre).files ∨ fails m = true) :
    ((execPass dataDir fails files moves).results.map Prod.fst = moves) ∧
    ((execPass dataDir fails files moves).reports =
      ((execPass dataDir fails files moves).results.filter
        (fun r => decide (r.2 = Outcome.moved))).map
        (fun r => (r.1.pool_name, movedRecord dataDir r.1))) ∧
    (execPass dataDir fails files (pre ++ m :: post) =
      { results := (execPass dataDir fails files pre).results ++
          (m, if m.source ∈ (execPass dataDir fails files pre).files then Outcome.failed
            else Outcome.skipped) ::
          (execPass dataDir fails (execPass dataDir fails files pre).files post).results
        reports := (execPass dataDir fails files pre).reports ++
          (execPass dataDir fails (execPass dataDir fails files pre).files post).reports
        files := (execPass dataDir fails (execPass dataDir fails files pre).files post).files }) := by
  refine ⟨execPass_results_map dataDir fails files moves,
    execPass_reports_eq_moved dataDir fails files moves, ?_⟩
  rw [execPass_append dataDir fails files pre (m :: post)]
  by_cases h1 : m.source ∈ (execPass dataDir fails files pre).files
  · have h2 : fails m = true := h.resolve_left (not_not_intro h1)
    simp only [execPass]
    rw [if_neg (not_not_intro h1), if_pos h2, if_pos h1]
  · simp only [execPass]
    rw [if_pos h1, if_neg h1]

/-- Witness for claim C8: a single planned move whose shutil.move fails is
recorded as failed, produces no report row, and leaves the file set for the
(empty) remainder unchanged. -/
theorem exec_isolates_failures_witness :
    ((Move.mk "d/x.jpg" "d/P" "P" (ImageRecord.mk "x.jpg" "t")).source ∉
        (execPass "d" (fun mv => mv.source == "d/x.jpg") {"d/x.jpg"} []).files ∨
      (fun mv : Move => mv.source == "d/x.jpg")
        (Move.mk "d/x.jpg" "d/P" "P" (ImageRecord.mk "x.jpg" "t")) = true) ∧
    (((execPass "d" (fun mv => mv.source == "d/x.jpg") {"d/x.jpg"}
        [Move.mk "d/x.jpg" "d/P" "P" (ImageRecord.mk "x.jpg" "t")]).results.map Prod.fst =
      [Move.mk "d/x.jpg" "d/P" "P" (ImageRecord.mk "x.jpg" "t")]) ∧
    ((execPass "d" (fun mv => mv.source == "d/x.jpg") {"d/x.jpg"}
        [Move.mk "d/x.jpg" "d/P" "P" (ImageRecord.mk "x.jpg" "t")]).reports =
      ((execPass "d" (fun mv => mv.source == "d/x.jpg") {"d/x.jpg"}
        [Move.mk "d/x.jpg" "d/P" "P" (ImageRecord.mk "x.jpg" "t")]).results.filter
        (fun r => decide (r.2 = Outcome.moved))).map
        (fun r => (r.1.pool_name, movedRecord "d" r.1))) ∧
    (execPass "d" (fun mv => mv.source == "d/x.jpg") {"d/x.jpg"}
        ([] ++ Move.mk "d/x.jpg" "d/P" "P" (ImageRecord.mk "x.jpg" "t") :: []) =
      { results := (execPass "d" (fun mv => mv.source == "d/x.jpg") {"d/x.jpg"} []).results ++
          (Move.mk "d/x.jpg" "d/P" "P" (ImageRecord.mk "x.jpg" "t"),
            if (Move.mk "d/x.jpg" "d/P" "P" (ImageRecord.mk "x.jpg" "t")).source ∈
              (execPass "d" (fun mv => mv.source == "d/x.jpg") {"d/x.jpg"} []).files
            then Outcome.failed else Outcome.skipped) ::
          (execPass "d" (fun mv => mv.source == "d/x.jpg")
            (execPass "d" (fun mv => mv.source == "d/x.jpg") {"d/x.jpg"} []).files []).results
        reports := (execPass "d" (fun mv => mv.source == "d/x.jpg") {"d/x.jpg"} []).reports ++
          (execPass "d" (fun mv => mv.source == "d/x.jpg")
            (execPass "d" (fun mv => mv.source == "d/x.jpg") {"d/x.jpg"} []).files []).reports
        files := (execPass "d" (fun mv => mv.source == "d/x.jpg")
          (execPass "d" (fun mv => mv.source == "d/x.jpg") {"d/x.jpg"} []).files []).files })) :=
  ⟨Or.inr (by decide),
    exec_isolates_failures "d" (fun mv => mv.source == "d/x.jpg") {"d/x.jpg"}
      [Move.mk "d/x.jpg" "d/P" "P" (ImageRecord.mk "x.jpg" "t")] [] []
      (Move.mk "d/x.jpg" "d/P" "P" (ImageRecord.mk "x.jpg" "t")) (Or.inr (by decide))⟩

end ImgTag
